import Mathlib

/-!
Verification of the revenue-table extraction pipeline
(`revenue_parser.py` / `tl10k.py`).

The Python code is shallowly embedded: pure fragments become Lean
functions over explicit data; exceptions become `Except`/`Option`
values; the document tree that BeautifulSoup produces becomes the
`Node` inductive; Python `str` operations are re-implemented over
`List Char` so that every definition evaluates inside the kernel.
-/

namespace TL10K

/-! ## Python string primitives

Python strings are sequences of code points; Lean `String.data` is the
same sequence, so the primitives below work on `List Char`.
-/

/-- Python `str.lower()` (code-point-wise lowering). -/
def pyLower (s : String) : String :=
  String.mk (s.data.map Char.toLower)

/-- Python `s.startswith(p)` for a single prefix `p`. -/
def pyStartswith (s p : String) : Bool :=
  p.data.isPrefixOf s.data

/-- Python `s.startswith(tuple(ps))`: true iff some member matches;
`s.startswith(())` is `False`. -/
def pyStartswithAny (s : String) (ps : List String) : Bool :=
  ps.any (fun p => pyStartswith s p)

/-- Helper for Python `s.find(sub)`: scan positions left to right. -/
def pyFindAux (needle : List Char) : List Char → Nat → Option Nat
  | [], i => if needle.isPrefixOf [] then some i else none
  | c :: cs, i =>
    if needle.isPrefixOf (c :: cs) then some i else pyFindAux needle cs (i + 1)

/-- Python `s.find(sub)`: index of the first occurrence, `none` for `-1`. -/
def pyFind (s sub : String) : Option Nat :=
  pyFindAux sub.data s.data 0

/-- Python `sub in s` (substring containment). -/
def pyContains (s sub : String) : Bool :=
  (pyFind s sub).isSome

/-- Python `str.strip()` (leading and trailing whitespace removed). -/
def pyStripChars (cs : List Char) : List Char :=
  ((cs.dropWhile Char.isWhitespace).reverse.dropWhile Char.isWhitespace).reverse

/-- Python `str.strip()` on a `String`. -/
def pyStrip (s : String) : String :=
  String.mk (pyStripChars s.data)

/-- Helper for Python `s.split(sep)` with a one-char separator. -/
def pySplitAux (sep : Char) (cur : List Char) : List Char → List (List Char)
  | [] => [cur.reverse]
  | c :: cs =>
    if c = sep then cur.reverse :: pySplitAux sep [] cs
    else pySplitAux sep (c :: cur) cs

/-- Python `s.split(sep)` for a single-character separator
(`"".split(sep) == [""]`, empty pieces kept). -/
def pySplit (s : String) (sep : Char) : List String :=
  (pySplitAux sep [] s.data).map String.mk

/-- Python `s[a:b]` for `0 ≤ a` (an empty string when `b ≤ a`). -/
def pySlice (s : String) (a b : Nat) : String :=
  String.mk ((s.data.drop a).take (b - a))

/-- Python `<` on strings: strict lexicographic order on code points. -/
def strLtB : List Char → List Char → Bool
  | [], [] => false
  | [], _ :: _ => true
  | _ :: _, [] => false
  | a :: as, b :: bs => if a < b then true else if b < a then false else strLtB as bs

/-- Python `<` on `String` values. -/
def pyStrLt (a b : String) : Bool :=
  strLtB a.data b.data

/-! ## The retry wrappers

`retry` (revenue_parser.py lines 17-33):

```
retries = 0
while retries < max_retries:
    try: return func(...)
    except Exception as e:
        retries += 1
        if retries == max_retries: raise e
        print("Attempt ... failed, retrying...")
return func(...)
```

`retry_with_backoff` (tl10k.py lines 124-141):

```
max_attempts = 3; attempt = 1
while attempt <= max_attempts:
    try: return func(...)
    except Exception as e:
        if attempt == max_attempts: raise
        print(...); sleep(2 ** attempt); attempt += 1
```

A fallible operation is a function from the call index (number of
previous invocations) to `Except ε α`: `.error e` models a raised
exception, `.ok a` a returned value.
-/

/-- Observable outcome of one wrapped run: the value returned or the
exception propagated, the number of times the operation was invoked,
and the number of "retrying" messages logged. -/
structure RunTrace (α ε : Type) where
  result : Except ε α
  calls : Nat
  retryMsgs : Nat
deriving Repr

/-- Body of `retry`'s `while` loop, at call index `r` with
`fuel = max_retries - r` loop iterations still permitted.  `fuel = 0`
is the fall-through after the loop: one final unguarded call. -/
def retryGo {α ε : Type} (f : Nat → Except ε α) (r : Nat) : Nat → RunTrace α ε
  | 0 => ⟨f r, 1, 0⟩
  | fuel + 1 =>
    match f r with
    | .ok a => ⟨.ok a, 1, 0⟩
    | .error e =>
      if fuel = 0 then ⟨.error e, 1, 0⟩
      else
        let t := retryGo f (r + 1) fuel
        ⟨t.result, t.calls + 1, t.retryMsgs + 1⟩

/-- The decorator `retry(max_retries)` applied to operation `f`. -/
def retryRun {α ε : Type} (maxRetries : Nat) (f : Nat → Except ε α) : RunTrace α ε :=
  retryGo f 0 maxRetries

/-- Body of `retry_with_backoff`'s loop at call index `i`
(`attempt = i + 1`), with `fuel = max_attempts - i`; raising on the
last attempt is the `fuel = 1` case; `fuel = 0` is the loop exiting
with Python's implicit `None` (only reachable when
`max_attempts = 0`). -/
def backoffGo {α ε : Type} (f : Nat → Except ε α) (i : Nat) : Nat → Option (RunTrace α ε)
  | 0 => none
  | 1 =>
    match f i with
    | .ok a => some ⟨.ok a, 1, 0⟩
    | .error e => some ⟨.error e, 1, 0⟩
  | fuel + 2 =>
    match f i with
    | .ok a => some ⟨.ok a, 1, 0⟩
    | .error _ =>
      match backoffGo f (i + 1) (fuel + 1) with
      | none => none
      | some t => some ⟨t.result, t.calls + 1, t.retryMsgs + 1⟩

/-- `retry_with_backoff`'s loop with the attempt bound as a parameter. -/
def backoffRun {α ε : Type} (maxAttempts : Nat) (f : Nat → Except ε α) : Option (RunTrace α ε) :=
  backoffGo f 0 maxAttempts

/-- The decorator `retry_with_backoff` itself (`max_attempts = 3` is
hard-coded in the source). -/
def retryWithBackoff {α ε : Type} (f : Nat → Except ε α) : Option (RunTrace α ε) :=
  backoffRun 3 f

/-! ## The refiner's answer interpretation

`parse_json_response` (revenue_parser.py lines 269-323) locates a
CDATA-delimited payload and validates it; JSON decoding plus pydantic
validation of the payload is abstracted as a parameter
`validate : String → Option β` (`none` models a raised
`json.JSONDecodeError` / pydantic `ValidationError`, both of which the
function converts to a raised `ValueError`).  The refined-table type is
a parameter `β` (pydantic `RevenueTable`).
-/

/-- Model of `parse_json_response`: `.error` is a raised `ValueError`. -/
def parseJsonResponse {β : Type} (validate : String → Option β) (content : String) :
    Except String β :=
  match pyFind content "<![CDATA[", pyFind content "]]>" with
  | some startIdx, some endIdx =>
    let jsonStr := pyStrip (pySlice content (startIdx + 9) endIdx)
    match validate jsonStr with
    | some rt => .ok rt
    | none => .error "Invalid JSON format"
  | _, _ => .error "No CDATA section found in response"

/-- Model of `refine_table`'s handling of one model answer `content`
(revenue_parser.py lines 254-266): the rejection check, then JSON
parsing with `except ValueError: return None`. -/
def refineOutcome {β : Type} (validate : String → Option β) (content : String) :
    Option β :=
  if pyContains (pyLower content) "no table" then none
  else
    match parseJsonResponse validate content with
    | .ok rt => some rt
    | .error _ => none

/-- One full `refine_table` invocation: the completion request may
raise a transport error (`.error`) or deliver an answer string. -/
def refineAttempt {β ε : Type} (validate : String → Option β)
    (responses : Nat → Except ε String) (i : Nat) : Except ε (Option β) :=
  match responses i with
  | .error e => .error e
  | .ok content => .ok (refineOutcome validate content)

/-- `refine_table` as deployed: the `@retry(max_retries=3)`-wrapped
call, driven by the sequence of completion-service responses. -/
def refineTableRun {β ε : Type} (validate : String → Option β)
    (responses : Nat → Except ε String) : RunTrace (Option β) ε :=
  retryRun 3 (refineAttempt validate responses)

/-! ## The document tree

BeautifulSoup's parsed document: element nodes with an ordered
attribute list and ordered children, and text nodes.  `html.parser`
lower-cases HTML attribute names, so attribute keys are stored as the
parser reports them (e.g. `contextref`).
-/

/-- One markup attribute. -/
structure Attr where
  key : String
  value : String
deriving Repr, DecidableEq

/-- A parsed markup node. -/
inductive Node where
  | text (s : String)
  | elem (tag : String) (attrs : List Attr) (children : List Node)
deriving Repr

/-- Tag name of an element node. -/
def nodeTag : Node → Option String
  | .text _ => none
  | .elem t _ _ => some t

/-- Attribute lookup (`element.get(key)`); the first binding wins, as
in BeautifulSoup's attribute dict. -/
def getAttr (n : Node) (k : String) : Option String :=
  match n with
  | .text _ => none
  | .elem _ attrs _ => (attrs.find? (fun a => a.key = k)).map (fun a => a.value)

/-- Attribute lookup with a default (`element.get(key, d)`). -/
def getAttrD (n : Node) (k d : String) : String :=
  (getAttr n k).getD d

mutual

/-- Serialization `str(node)` of a node back to markup text. -/
def renderNode : Node → String
  | .text s => s
  | .elem t attrs cs =>
    "<" ++ t ++ String.join (attrs.map (fun a => " " ++ a.key ++ "=\x22" ++ a.value ++ "\x22"))
      ++ ">" ++ renderNodes cs ++ "</" ++ t ++ ">"

/-- Serialization of a child list. -/
def renderNodes : List Node → String
  | [] => ""
  | n :: ns => renderNode n ++ renderNodes ns

end

mutual

/-- `get_text(strip=True)`: every text fragment stripped, concatenated. -/
def getTextS : Node → String
  | .text s => pyStrip s
  | .elem _ _ cs => getTextListS cs

/-- `get_text(strip=True)` over a child list. -/
def getTextListS : List Node → String
  | [] => ""
  | n :: ns => getTextS n ++ getTextListS ns

end

mutual

/-- `.text` / `get_text()`: raw text fragments concatenated. -/
def rawText : Node → String
  | .text s => s
  | .elem _ _ cs => rawTextList cs

/-- Raw text of a child list. -/
def rawTextList : List Node → String
  | [] => ""
  | n :: ns => rawText n ++ rawTextList ns

end

mutual

/-- All element nodes of a subtree in document (preorder) order,
including the root when it is an element — the order `find_all` and
`select` report matches in. -/
def elemsOf : Node → List Node
  | .text _ => []
  | .elem t a cs => .elem t a cs :: elemsOfList cs

/-- Element nodes of a forest in document order. -/
def elemsOfList : List Node → List Node
  | [] => []
  | n :: ns => elemsOf n ++ elemsOfList ns

end

mutual

/-- Element nodes of a subtree paired with their ancestor chain
(nearest ancestor first), in document order; `find_parent(t)` is the
first ancestor with tag `t`. -/
def elemsWithAnc (anc : List Node) : Node → List (Node × List Node)
  | .text _ => []
  | .elem t a cs =>
    (.elem t a cs, anc) :: elemsWithAncList (.elem t a cs :: anc) cs

/-- Elements-with-ancestors of a forest. -/
def elemsWithAncList (anc : List Node) : List Node → List (Node × List Node)
  | [] => []
  | n :: ns => elemsWithAnc anc n ++ elemsWithAncList anc ns

end

/-! ## The table canonicalizer

`cleanup_table` (revenue_parser.py lines 55-90): on every element,
the `style` attribute is reduced to `re.search(r"padding:[^;]+", style)`
plus a semicolon (or dropped when the pattern does not match), and the
attributes `contextref`, `name`, `format`, `id` are removed.
-/

/-- The literal `padding:` the regex starts with. -/
def padLit : List Char := 'p' :: 'a' :: 'd' :: 'd' :: 'i' :: 'n' :: 'g' :: ':' :: []

/-- One anchored attempt of `padding:[^;]+` at the head of `cs`:
the literal, then a non-empty greedy run of non-semicolon characters. -/
def matchPaddingAt (cs : List Char) : Option (List Char) :=
  if padLit.isPrefixOf cs then
    if (cs.drop padLit.length).takeWhile (fun c => c ≠ ';') = [] then none
    else some (padLit ++ (cs.drop padLit.length).takeWhile (fun c => c ≠ ';'))
  else none

/-- `re.search(r"padding:[^;]+", s)`: leftmost match wins. -/
def reSearchPadding : List Char → Option (List Char)
  | [] => none
  | c :: cs =>
    match matchPaddingAt (c :: cs) with
    | some m => some m
    | none => reSearchPadding cs

/-- Attribute names removed by `cleanup_table` (`html.parser`
lower-cases them at parse time). -/
def attrsToRemove : List String := ["contextref", "name", "format", "id"]

/-- `cleanup_table`'s treatment of a single attribute: `style` is
reduced to the padding match plus a semicolon (or dropped), the
bookkeeping attributes are removed, anything else survives. -/
def cleanAttr (a : Attr) : Option Attr :=
  if a.key = "style" then
    match reSearchPadding a.value.data with
    | some m => some ⟨"style", String.mk (m ++ [';'])⟩
    | none => none
  else if a.key ∈ attrsToRemove then none
  else some a

/-- Per-element attribute rewriting of `cleanup_table`. -/
def cleanAttrs (attrs : List Attr) : List Attr :=
  attrs.filterMap cleanAttr

mutual

/-- `cleanup_table` on the parsed tree (it visits every element via
`find_all()` including the table itself). -/
def cleanupNode : Node → Node
  | .text s => .text s
  | .elem t attrs cs => .elem t (cleanAttrs attrs) (cleanupList cs)

/-- `cleanup_table` over a child list. -/
def cleanupList : List Node → List Node
  | [] => []
  | n :: ns => cleanupNode n :: cleanupList ns

end

/-- `cleanup_table` end to end: parse (already given as a tree), clean,
serialize with `str(...)`. -/
def cleanupTableStr (table : Node) : String :=
  renderNode (cleanupNode table)

/-! ## Tag index builder (`get_gaaps`, revenue_parser.py lines 149-183)

`sorted(list(gaap_tags))` of a Python `set` of strings is the strictly
increasing (code-point lexicographic) enumeration of the distinct
collected strings; `sortedDedup` below computes exactly that.
`name.replace("us-gaap:", "")` removes every occurrence of the
substring, not only a leading one.
-/

/-- Python `name.replace("us-gaap:", "")`. -/
def stripUsGaapAll : List Char → List Char
  | 'u' :: 's' :: '-' :: 'g' :: 'a' :: 'a' :: 'p' :: ':' :: rest => stripUsGaapAll rest
  | c :: cs => c :: stripUsGaapAll cs
  | [] => []

/-- Insert into a strictly sorted duplicate-free list, keeping it so. -/
def insertStr (x : String) : List String → List String
  | [] => [x]
  | y :: ys =>
    if x = y then y :: ys
    else if pyStrLt x y then x :: y :: ys
    else y :: insertStr x ys

/-- `sorted(list(set(l)))`: the strictly sorted list of the distinct
members of `l`. -/
def sortedDedup (l : List String) : List String :=
  l.foldl (fun acc x => insertStr x acc) []

/-- The fully qualified names collected from elements carrying a
`name` attribute (`soup.select("[name]")`, document order). -/
def namedAttrValues (doc : Node) : List String :=
  (elemsOf doc).filterMap (fun e => getAttr e "name")

/-- The tag references collected from `xbrli:measure` element text. -/
def measureContents (doc : Node) : List String :=
  ((elemsOf doc).filter (fun e => nodeTag e = some "xbrli:measure")).map
    (fun e => pyStrip (rawText e))

/-- Names that pass the `us-gaap:` check, with the prefix text removed. -/
def usGaapLocals (names : List String) : List String :=
  (names.filter (fun n => pyStartswith n "us-gaap:")).map
    (fun n => String.mk (stripUsGaapAll n.data))

/-- `get_gaaps` on a successfully parsed document. -/
def getGaapsDoc (doc : Node) : List String :=
  sortedDedup (usGaapLocals (namedAttrValues doc) ++ usGaapLocals (measureContents doc))

/-- `get_gaaps` including its `except Exception: return None` branch:
the input is `none` when `BeautifulSoup(xbrl_content, "xml")` raises,
and the function then returns Python `None` (not an empty list). -/
def getGaaps (parsed : Option Node) : Option (List String) :=
  match parsed with
  | none => none
  | some doc => some (getGaapsDoc doc)

/-! ## Tag filter (revenue_parser.py lines 343-345)

`[tag for tag in gaap_tags if tag.lower().startswith(tuple(keywords))]`.
-/

/-- The tag filter: keeps tags whose lowered name starts with one of
the keywords (keywords are matched verbatim). -/
def filterTags (tags : List String) (keywords : List String) : List String :=
  tags.filter (fun tag => pyStartswithAny (pyLower tag) keywords)

/-! ## Table locator (`get_tables_by_tag`, revenue_parser.py lines 185-217)

The matching facts are deduplicated through a Python `set` of cleaned
table strings; `list(tables)` then enumerates that set in an order the
language does not specify (for strings it varies with hash
randomization).  The set is modeled by its insertion-order content
list `pySetInsertionList`, and `list(...)` by an enumeration function
`enum`; `SetEnum enum` says `enum` yields each distinct member exactly
once, which is all Python guarantees.
-/

/-- `s.add(x)` on a set represented by its insertion-order content. -/
def addToSet (l : List String) (x : String) : List String :=
  if x ∈ l then l else l ++ [x]

/-- Contents of the Python set after adding every member of `xs`. -/
def pySetInsertionList (xs : List String) : List String :=
  xs.foldl addToSet []

/-- A valid `list(set)` enumeration: some permutation of the distinct
members. -/
def SetEnum (enum : List String → List String) : Prop :=
  ∀ l : List String, l.Nodup → (enum l).Perm l

/-- The recognized inline-fact kinds (`element.name.lower()` must be
one of them). -/
def factKinds : List String := ["nonnumeric", "numeric", "nonfraction", "fraction"]

/-- The cleaned parent tables of the facts carrying `tagName`, in
document (discovery) order, with duplicates possible. -/
def discoveredTables (doc : Node) (tagName : String) : List String :=
  (elemsWithAnc [] doc).filterMap (fun p =>
    if getAttr p.1 "name" = some tagName ∧
        (nodeTag p.1).map pyLower ∈ (factKinds.map some) then
      (p.2.find? (fun a => nodeTag a = some "table")).map cleanupTableStr
    else none)

/-- `get_tables_by_tag` (its `except` branch returns `[]`; a parse
failure is the `none` input). -/
def getTablesByTag (enum : List String → List String) (parsed : Option Node)
    (tagName : String) : List String :=
  match parsed with
  | none => []
  | some doc => enum (pySetInsertionList (discoveredTables doc tagName))

/-! ## Result aggregator (`analyze_revenue_tables`, lines 325-359)

The per-table refinement is abstracted as `refine : String → Option β`
(the outcome of `refine_table` once an answer was obtained: `none` for
a rejection or a format failure, cf. `refineOutcome`).  The input is
the parse outcome of the downloaded filing; when the parse raises,
`get_gaaps` returns `None` and the subsequent list comprehension
raises `TypeError`, modeled by `.error ()`.
-/

/-- The keyword policy hard-coded in `analyze_revenue_tables`. -/
def expectedKeywords : List String := ["revenue"]

/-- The retained (filtered) tag list of a parsed document. -/
def retainedTags (doc : Node) : List String :=
  filterTags (getGaapsDoc doc) expectedKeywords

/-- All candidate tables handed to the refiner, in processing order. -/
def candidateTables (enum : List String → List String) (doc : Node) : List String :=
  (retainedTags doc).flatMap (fun tag =>
    getTablesByTag enum (some doc) ("us-gaap:" ++ tag))

/-- `analyze_revenue_tables` for a filing that downloaded successfully:
`.error ()` models the uncaught `TypeError` raised when `get_gaaps`
returned `None`. -/
def analyzeRevenueTables {β : Type} (enum : List String → List String)
    (refine : String → Option β) (parsed : Option Node) : Except Unit (List β) :=
  match getGaaps parsed with
  | none => .error ()
  | some gaapTags =>
    let tags := filterTags gaapTags expectedKeywords
    let refined := tags.flatMap (fun tag =>
      (getTablesByTag enum parsed ("us-gaap:" ++ tag)).map refine)
    .ok (refined.filterMap id)

/-! ## Table-to-text conversion (`convert_html_table_to_markdown`,
revenue_parser.py lines 102-147) -/

/-- `tr.find_all(["th", "td"])` / `tr.find_all(["td", "th"])`:
descendant cells in document order. -/
def cellsOf (tr : Node) : List Node :=
  (elemsOf tr).filter (fun e => nodeTag e = some "th" ∨ nodeTag e = some "td")

/-- All `tr` elements of the parsed fragment in document order. -/
def trsOf (soup : Node) : List Node :=
  (elemsOf soup).filter (fun e => nodeTag e = some "tr")

/-- One data cell's text: prefixed with `"- "` when the cell style
shows right padding or a `padding:` directive and the text is
non-empty. -/
def cellText (td : Node) : String :=
  let text := getTextS td
  let style := pyLower (getAttrD td "style" "")
  let hasRightPadding :=
    pyContains style "padding-right" ||
      (pySplit style ';').any (fun p =>
        pyStrip p ≠ "" && pyStartswith (pyStrip p) "padding:")
  if hasRightPadding && text ≠ "" then "- " ++ text else text

/-- The row-filter threshold (`MIN_NON_EMPTY_CELLS = 0`). -/
def minNonEmptyCells : Nat := 0

/-- One data row: cell texts, kept when at least `minNonEmptyCells`
cells are non-empty, truncated then right-padded to the header width. -/
def dataRow (numHeaders : Nat) (tr : Node) : Option (List String) :=
  let row := (cellsOf tr).map cellText
  let nonEmpty := row.filter (fun c => c ≠ "" && pyStrip c ≠ "")
  if nonEmpty.length ≥ minNonEmptyCells then
    let r := row.take numHeaders
    some (r ++ List.replicate (numHeaders - r.length) "")
  else none

/-- The header/body grid `convert_html_table_to_markdown` builds
before serializing to markdown (`none` when the function returns
`None`). -/
def convertGrid (soup : Node) : Option (List String × List (List String)) :=
  let trs := trsOf soup
  let headers :=
    match trs with
    | [] => []
    | tr0 :: _ => (cellsOf tr0).map getTextS
  let rows := (trs.drop 1).filterMap (dataRow headers.length)
  let headers :=
    if headers = [] ∧ rows ≠ [] then
      (List.range (rows.headI.length)).map (fun i => "Column " ++ toString (i + 1))
    else headers
  if headers = [] ∨ rows = [] then none
  else some (headers, rows)

/-- The markdown text assembled from the grid. -/
def convertHtmlTableToMarkdown (soup : Node) : Option String :=
  match convertGrid soup with
  | none => none
  | some (headers, rows) =>
    let line := fun (r : List String) => "| " ++ String.intercalate " | " r ++ " |"
    some (String.intercalate "\n"
      (line headers :: line (headers.map (fun _ => "---")) :: rows.map line))

/-! ## Concrete fixtures used by the theorems below -/

/-- A concrete operation failing twice, then succeeding with value 42. -/
def failTwiceThenOk : Nat → Except Nat Nat :=
  fun i => if i < 2 then .error i else .ok 42

/-- A table carrying two facts tagged with two different retained
revenue tags. -/
def dupFactsTableNode : Node :=
  .elem "table" [⟨"id", "t1"⟩]
    [.elem "tr" []
      [.elem "td" [] [.elem "nonFraction" [⟨"name", "us-gaap:RevenueA"⟩] [.text "100"]],
       .elem "td" [] [.elem "nonFraction" [⟨"name", "us-gaap:RevenueB"⟩] [.text "50"]]]]

/-- A filing containing `dupFactsTableNode`. -/
def dupFactsDoc : Node :=
  .elem "html" [] [dupFactsTableNode]

/-- First of two tables tagged with the same revenue tag. -/
def tblOneNode : Node :=
  .elem "table" [⟨"id", "t1"⟩]
    [.elem "tr" [] [.elem "td" [] [.elem "nonFraction" [⟨"name", "us-gaap:Revenues"⟩] [.text "1"]]]]

/-- Second of two tables tagged with the same revenue tag. -/
def tblTwoNode : Node :=
  .elem "table" [⟨"id", "t2"⟩]
    [.elem "tr" [] [.elem "td" [] [.elem "nonFraction" [⟨"name", "us-gaap:Revenues"⟩] [.text "2"]]]]

/-- A filing whose single tag is carried by facts in two distinct
tables, discovered in the order `tblOneNode`, `tblTwoNode`. -/
def twoTablesDoc : Node :=
  .elem "html" [] [tblOneNode, tblTwoNode]

/-- A well-formed document with no `us-gaap` names at all. -/
def noGaapDoc : Node :=
  .elem "html" [] [.elem "p" [⟨"class", "x"⟩] [.text "hello"]]

/-- A data cell. -/
def mkCell (s : String) : Node :=
  .elem "td" [] [.text s]

/-- A table row. -/
def mkRow (cells : List Node) : Node :=
  .elem "tr" [] cells

/-- The well-formed table from the spec's round-trip property: header
row Segment/2024 and three data rows. -/
def sampleTable : Node :=
  .elem "table" []
    [mkRow [mkCell "Segment", mkCell "2024"],
     mkRow [mkCell "Product A", mkCell "100"],
     mkRow [mkCell "Product B", mkCell "50"],
     mkRow [mkCell "Total", mkCell "150"]]

/-! ## Generic helpers -/

/-- Decidable equality for `Except` values. -/
instance {ε α : Type} [DecidableEq ε] [DecidableEq α] : DecidableEq (Except ε α) :=
  fun x y =>
    match x, y with
    | .ok a, .ok b => decidable_of_iff (a = b) (by simp)
    | .error e, .error e' => decidable_of_iff (e = e') (by simp)
    | .ok _, .error _ => .isFalse (by simp)
    | .error _, .ok _ => .isFalse (by simp)

/-- Decidable equality for run traces. -/
instance {α ε : Type} [DecidableEq ε] [DecidableEq α] : DecidableEq (RunTrace α ε) :=
  fun x y =>
    match x, y with
    | ⟨r, c, m⟩, ⟨r', c', m'⟩ =>
      decidable_of_iff (r = r' ∧ c = c' ∧ m = m') (by simp [RunTrace.mk.injEq])

/-- The identity enumeration is a valid `list(set)` read-out. -/
theorem setEnum_id : SetEnum (fun l => l) :=
  fun l _ => List.Perm.refl l

/-- Reversal is a valid `list(set)` read-out: hash randomization can
produce any permutation of the set's members. -/
theorem setEnum_reverse : SetEnum List.reverse :=
  fun l _ => l.reverse_perm

/-! ## Retry wrapper lemmas -/

/-- One loop step of `retry` when the call succeeds. -/
theorem retryGo_succ_ok {α ε : Type} (f : Nat → Except ε α) (r fuel : Nat) (a : α)
    (h : f r = .ok a) : retryGo f r (fuel + 1) = ⟨.ok a, 1, 0⟩ := by
  simp only [retryGo, h]

/-- One loop step of `retry` when the call raises. -/
theorem retryGo_succ_err {α ε : Type} (f : Nat → Except ε α) (r fuel : Nat) (e : ε)
    (h : f r = .error e) :
    retryGo f r (fuel + 1) =
      if fuel = 0 then ⟨.error e, 1, 0⟩
      else
        ⟨(retryGo f (r + 1) fuel).result, (retryGo f (r + 1) fuel).calls + 1,
         (retryGo f (r + 1) fuel).retryMsgs + 1⟩ := by
  simp only [retryGo, h]

/-- Unrolling `retry`'s loop over `k` failed calls followed by a
success, with loop fuel to spare. -/
theorem retryGo_ok {α ε : Type} (k : Nat) (f : Nat → Except ε α) (a : α) :
    ∀ (r fuel : Nat) (e : Nat → ε), (∀ i, i < k → f (r + i) = .error (e i)) →
      f (r + k) = .ok a → k < fuel → retryGo f r fuel = ⟨.ok a, k + 1, k⟩ := by
  induction k with
  | zero =>
    intro r fuel _ _ hsucc hfuel
    match fuel, hfuel with
    | fuel + 1, _ => exact retryGo_succ_ok f r fuel a hsucc
  | succ k ih =>
    intro r fuel e hfail hsucc hfuel
    match fuel, hfuel with
    | fuel + 1, hfuel =>
      have hf0 : f r = .error (e 0) := by simpa using hfail 0 (Nat.succ_pos k)
      have hrec : retryGo f (r + 1) fuel = ⟨.ok a, k + 1, k⟩ := by
        apply ih (r + 1) fuel (fun i => e (i + 1))
        · intro i hi
          have := hfail (i + 1) (by omega)
          rw [show r + 1 + i = r + (i + 1) by omega]
          exact this
        · rw [show r + 1 + k = r + (k + 1) by omega]
          exact hsucc
        · omega
      rw [retryGo_succ_err f r fuel (e 0) hf0, if_neg (by omega), hrec]

/-- Unrolling `retry`'s loop when the fuel runs out on failures: the
`k`-th failure is re-raised after exactly `k` calls. -/
theorem retryGo_err {α ε : Type} (k : Nat) (f : Nat → Except ε α) :
    ∀ (r : Nat) (e : Nat → ε), 1 ≤ k → (∀ i, i < k → f (r + i) = .error (e i)) →
      retryGo f r k = ⟨.error (e (k - 1)), k, k - 1⟩ := by
  induction k with
  | zero => intro r e h; omega
  | succ k ih =>
    intro r e _ hfail
    have hf0 : f r = .error (e 0) := by simpa using hfail 0 (Nat.succ_pos k)
    match k with
    | 0 => rw [retryGo_succ_err f r 0 (e 0) hf0, if_pos rfl]
    | k + 1 =>
      have hrec : retryGo f (r + 1) (k + 1) = ⟨.error (e (k + 1)), k + 1, k⟩ := by
        have := ih (r + 1) (fun i => e (i + 1)) (Nat.succ_pos k) (fun i hi => by
          have := hfail (i + 1) (by omega)
          rw [show r + 1 + i = r + (i + 1) by omega]
          exact this)
        simpa using this
      rw [retryGo_succ_err f r (k + 1) (e 0) hf0, if_neg (by omega), hrec]
      simp

/-- One loop step of `retry_with_backoff` when the call succeeds. -/
theorem backoffGo_succ_ok {α ε : Type} (f : Nat → Except ε α) (r fuel : Nat) (a : α)
    (h : f r = .ok a) : backoffGo f r (fuel + 1) = some ⟨.ok a, 1, 0⟩ := by
  match fuel with
  | 0 => simp only [backoffGo, h]
  | fuel + 1 => simp only [backoffGo, h]

/-- The final attempt of `retry_with_backoff` re-raises its failure. -/
theorem backoffGo_one_err {α ε : Type} (f : Nat → Except ε α) (r : Nat) (e : ε)
    (h : f r = .error e) : backoffGo f r 1 = some ⟨.error e, 1, 0⟩ := by
  simp only [backoffGo, h]

/-- One non-final loop step of `retry_with_backoff` when the call
raises. -/
theorem backoffGo_succ2_err {α ε : Type} (f : Nat → Except ε α) (r fuel : Nat) (e : ε)
    (h : f r = .error e) :
    backoffGo f r (fuel + 2) =
      match backoffGo f (r + 1) (fuel + 1) with
      | none => none
      | some t => some ⟨t.result, t.calls + 1, t.retryMsgs + 1⟩ := by
  simp only [backoffGo, h]

/-- Unrolling `retry_with_backoff`'s loop over `k` failures then a
success. -/
theorem backoffGo_ok {α ε : Type} (k : Nat) (f : Nat → Except ε α) (a : α) :
    ∀ (r fuel : Nat) (e : Nat → ε), (∀ i, i < k → f (r + i) = .error (e i)) →
      f (r + k) = .ok a → k < fuel → backoffGo f r fuel = some ⟨.ok a, k + 1, k⟩ := by
  induction k with
  | zero =>
    intro r fuel _ _ hsucc hfuel
    match fuel, hfuel with
    | fuel + 1, _ => exact backoffGo_succ_ok f r fuel a hsucc
  | succ k ih =>
    intro r fuel e hfail hsucc hfuel
    match fuel, hfuel with
    | fuel + 2, hfuel =>
      have hf0 : f r = .error (e 0) := by simpa using hfail 0 (Nat.succ_pos k)
      have hrec : backoffGo f (r + 1) (fuel + 1) = some ⟨.ok a, k + 1, k⟩ := by
        apply ih (r + 1) (fuel + 1) (fun i => e (i + 1))
        · intro i hi
          have := hfail (i + 1) (by omega)
          rw [show r + 1 + i = r + (i + 1) by omega]
          exact this
        · rw [show r + 1 + k = r + (k + 1) by omega]
          exact hsucc
        · omega
      rw [backoffGo_succ2_err f r fuel (e 0) hf0, hrec]

/-- Unrolling `retry_with_backoff`'s loop when every attempt fails:
the failure of the final attempt is re-raised after exactly `k`
calls. -/
theorem backoffGo_err {α ε : Type} (k : Nat) (f : Nat → Except ε α) :
    ∀ (r : Nat) (e : Nat → ε), 1 ≤ k → (∀ i, i < k → f (r + i) = .error (e i)) →
      backoffGo f r k = some ⟨.error (e (k - 1)), k, k - 1⟩ := by
  induction k with
  | zero => intro r e h; omega
  | succ k ih =>
    intro r e _ hfail
    have hf0 : f r = .error (e 0) := by simpa using hfail 0 (Nat.succ_pos k)
    match k with
    | 0 => exact backoffGo_one_err f r (e 0) hf0
    | k + 1 =>
      have hrec : backoffGo f (r + 1) (k + 1) = some ⟨.error (e (k + 1)), k + 1, k⟩ := by
        have := ih (r + 1) (fun i => e (i + 1)) (Nat.succ_pos k) (fun i hi => by
          have := hfail (i + 1) (by omega)
          rw [show r + 1 + i = r + (i + 1) by omega]
          exact this)
        simpa using this
      rw [backoffGo_succ2_err f r k (e 0) hf0, hrec]
      simp

/-- C5: an operation that raises on its first `k` invocations and
succeeds on invocation `k + 1` (the hypothesis `1 ≤ k` is needed for
"the last observed error" to exist): wrapped with a bound of `k + 1`,
both `retry` and `retry_with_backoff`'s loop return the success after
`k + 1` calls having logged `k` prior failures; wrapped with a bound
of `k`, both invoke the operation exactly `k` times and re-raise the
`k`-th error. -/
theorem retry_bound_spec {α ε : Type} (k : Nat) (f : Nat → Except ε α) (e : Nat → ε) (a : α)
    (hk : 1 ≤ k) (hfail : ∀ i, i < k → f i = .error (e i)) (hsucc : f k = .ok a) :
    retryRun (k + 1) f = ⟨.ok a, k + 1, k⟩ ∧
    retryRun k f = ⟨.error (e (k - 1)), k, k - 1⟩ ∧
    backoffRun (k + 1) f = some ⟨.ok a, k + 1, k⟩ ∧
    backoffRun k f = some ⟨.error (e (k - 1)), k, k - 1⟩ := by
  refine ⟨?_, ?_, ?_, ?_⟩
  · exact retryGo_ok k f a 0 (k + 1) e (by simpa using hfail) (by simpa using hsucc) (by omega)
  · exact retryGo_err k f 0 e hk (by simpa using hfail)
  · exact backoffGo_ok k f a 0 (k + 1) e (by simpa using hfail) (by simpa using hsucc) (by omega)
  · exact backoffGo_err k f 0 e hk (by simpa using hfail)

/-- Witness for C5 at `k = 2`. -/
theorem retry_bound_spec_witness :
    ((1 ≤ 2) ∧ (∀ i, i < 2 → failTwiceThenOk i = .error i) ∧ failTwiceThenOk 2 = .ok 42) ∧
    (retryRun 3 failTwiceThenOk = ⟨.ok 42, 3, 2⟩ ∧
     retryRun 2 failTwiceThenOk = ⟨.error 1, 2, 1⟩ ∧
     backoffRun 3 failTwiceThenOk = some ⟨.ok 42, 3, 2⟩ ∧
     backoffRun 2 failTwiceThenOk = some ⟨.error 1, 2, 1⟩) :=
  ⟨⟨by decide, by decide, by decide⟩,
   retry_bound_spec 2 failTwiceThenOk (fun i => i) 42 (by decide) (by decide) (by decide)⟩

/-- Every trace of the `retry` wrapper invokes the operation at least
once. -/
theorem retryGo_calls_pos {α ε : Type} (f : Nat → Except ε α) (r fuel : Nat) :
    1 ≤ (retryGo f r fuel).calls := by
  match fuel with
  | 0 => simp [retryGo]
  | fuel + 1 =>
    simp only [retryGo]
    match f r with
    | .ok a => simp
    | .error e =>
      by_cases h : fuel = 0 <;> simp [h]

/-- C10: with `max_retries = 0` the `while` loop body never runs and
control falls through to the final direct call: the operation is
invoked exactly once, its result returned (or its exception
propagated) with no retry message; and for every bound the wrapper
never returns without invoking the operation at least once. -/
theorem retry_zero_invokes_once {α ε : Type} (f : Nat → Except ε α) :
    retryRun 0 f = ⟨f 0, 1, 0⟩ ∧ ∀ maxRetries, 1 ≤ (retryRun maxRetries f).calls :=
  ⟨rfl, fun maxRetries => retryGo_calls_pos f 0 maxRetries⟩

/-! ## Refiner outcome theorems -/

/-- C3: an answer containing the non-table phrase (case-insensitive)
makes `refine_table` return the rejection outcome `None` no matter how
the CDATA payload would parse or validate (the result is independent
of `validate`, so no parsing is attempted), never a format failure. -/
theorem rejection_short_circuit {β : Type} (validate : String → Option β) (content : String)
    (h : pyContains (pyLower content) "no table" = true) :
    refineOutcome validate content = none := by
  simp [refineOutcome, h]

/-- Witness for C3: the rejection phrase wins even when the validator
would accept anything. -/
theorem rejection_short_circuit_witness :
    pyContains (pyLower "Sorry, there is NO TABLE in this content.") "no table" = true ∧
    refineOutcome (fun _ => some 7) "Sorry, there is NO TABLE in this content." = none :=
  ⟨by decide,
   rejection_short_circuit (fun _ => some 7) "Sorry, there is NO TABLE in this content."
     (by decide)⟩

/-- C2 counterexample: an answer with no CDATA payload (and no
rejection phrase) is not re-attempted — `refine_table` makes exactly
one call and returns `None`, the very same outcome value as an
explicit "no table" rejection, even though the validator would have
accepted a payload. -/
theorem format_failure_not_retried_cex :
    refineTableRun (fun _ => some 7)
        (fun _ => (.ok "Here is the data you asked for." : Except Unit String)) =
      ⟨.ok none, 1, 0⟩ ∧
    refineTableRun (fun _ => some 7)
        (fun _ => (.ok "There is no table here." : Except Unit String)) =
      ⟨.ok none, 1, 0⟩ :=
  ⟨rfl, rfl⟩

/-- C2 amended: a format failure (missing CDATA payload, invalid JSON,
or schema rejection — any `parse_json_response` error) is caught
inside `refine_table` and converted into the rejection outcome `None`;
the retry wrapper sees a normal return, so the request is not
re-attempted (one call, no retry message).  Only exceptions that
escape `refine_table` (e.g. transport errors) trigger the retry
bound. -/
theorem format_failure_becomes_none {β ε : Type} (validate : String → Option β)
    (content msg : String) (responses : Nat → Except ε String)
    (hno : pyContains (pyLower content) "no table" = false)
    (hfmt : parseJsonResponse validate content = .error msg)
    (hresp : responses 0 = .ok content) :
    refineOutcome validate content = none ∧
    refineTableRun validate responses = ⟨.ok none, 1, 0⟩ := by
  have houtcome : refineOutcome validate content = none := by
    simp [refineOutcome, hno, hfmt]
  refine ⟨houtcome, ?_⟩
  simp [refineTableRun, retryRun, retryGo, refineAttempt, hresp, houtcome]

/-- Witness for C2's amended statement on a payload-free answer. -/
theorem format_failure_becomes_none_witness :
    (pyContains (pyLower "Here is the data you asked for.") "no table" = false ∧
     parseJsonResponse (fun _ => some 7) "Here is the data you asked for." =
       .error "No CDATA section found in response" ∧
     (fun _ : Nat => (.ok "Here is the data you asked for." : Except Unit String)) 0 =
       .ok "Here is the data you asked for.") ∧
    (refineOutcome (fun _ => some 7) "Here is the data you asked for." = none ∧
     refineTableRun (fun _ => some 7)
        (fun _ => (.ok "Here is the data you asked for." : Except Unit String)) =
       ⟨.ok none, 1, 0⟩) :=
  ⟨⟨by decide, by decide, rfl⟩,
   format_failure_becomes_none (fun _ => some 7) "Here is the data you asked for."
     "No CDATA section found in response"
     (fun _ => (.ok "Here is the data you asked for." : Except Unit String))
     (by decide) (by decide) rfl⟩

/-! ## Canonicalizer idempotence (C4) -/

/-- A successful anchored padding match is the literal followed by a
non-empty semicolon-free body. -/
theorem matchPaddingAt_some {cs m : List Char} (h : matchPaddingAt cs = some m) :
    ∃ b, m = padLit ++ b ∧ b ≠ [] ∧ ∀ c ∈ b, c ≠ ';' := by
  unfold matchPaddingAt at h
  split at h
  · split at h
    · cases h
    · case isFalse hb =>
      injection h with h'
      refine ⟨(cs.drop padLit.length).takeWhile (fun c => c ≠ ';'), h'.symm, hb, ?_⟩
      intro c hc
      simpa using List.mem_takeWhile_imp hc
  · cases h

/-- Any successful `re.search(r"padding:[^;]+", ...)` match is the
literal followed by a non-empty semicolon-free body. -/
theorem reSearchPadding_some {cs m : List Char} (h : reSearchPadding cs = some m) :
    ∃ b, m = padLit ++ b ∧ b ≠ [] ∧ ∀ c ∈ b, c ≠ ';' := by
  induction cs with
  | nil => simp [reSearchPadding] at h
  | cons c cs ih =>
    unfold reSearchPadding at h
    cases hm : matchPaddingAt (c :: cs) with
    | some m' =>
      rw [hm] at h
      cases h
      exact matchPaddingAt_some hm
    | none =>
      rw [hm] at h
      exact ih h

/-- `takeWhile` stops exactly at the appended semicolon. -/
theorem takeWhile_semi_append {b : List Char} (rest : List Char)
    (hs : ∀ c ∈ b, c ≠ ';') :
    (b ++ ';' :: rest).takeWhile (fun c => c ≠ ';') = b := by
  have hself : b.takeWhile (fun c => decide (c ≠ ';')) = b :=
    List.takeWhile_eq_self_iff.mpr (fun x hx => by simpa using hs x hx)
  rw [List.takeWhile_append, hself]
  simp

/-- The anchored matcher recovers exactly the canonical value
`padding-literal ++ body ++ ";"` that `cleanup_table` writes back. -/
theorem matchPaddingAt_canonical {b : List Char} (hb : b ≠ []) (hs : ∀ c ∈ b, c ≠ ';') :
    matchPaddingAt (padLit ++ b ++ [';']) = some (padLit ++ b) := by
  unfold matchPaddingAt
  have hp : padLit.isPrefixOf (padLit ++ b ++ [';']) = true := by
    rw [List.isPrefixOf_iff_prefix, List.append_assoc]
    exact List.prefix_append padLit (b ++ [';'])
  have hdrop : (padLit ++ b ++ [';']).drop padLit.length = b ++ [';'] := by
    rw [List.append_assoc, List.drop_left]
  rw [hp, if_pos rfl, hdrop]
  have htake : (b ++ [';']).takeWhile (fun c => c ≠ ';') = b :=
    takeWhile_semi_append [] hs
  rw [htake, if_neg hb]

/-- One unfolding step of the leftmost-match search. -/
theorem reSearchPadding_cons (c : Char) (cs : List Char) :
    reSearchPadding (c :: cs) =
      match matchPaddingAt (c :: cs) with
      | some m => some m
      | none => reSearchPadding cs := rfl

/-- Re-searching a canonical style value finds the same match. -/
theorem reSearchPadding_canonical {b : List Char} (hb : b ≠ []) (hs : ∀ c ∈ b, c ≠ ';') :
    reSearchPadding (padLit ++ b ++ [';']) = some (padLit ++ b) := by
  have h1 : reSearchPadding (padLit ++ b ++ [';']) =
      match matchPaddingAt (padLit ++ b ++ [';']) with
      | some m => some m
      | none => reSearchPadding (padLit.tail ++ b ++ [';']) := rfl
  rw [h1, matchPaddingAt_canonical hb hs]

/-- Cleaning an attribute that survived cleaning changes nothing. -/
theorem cleanAttr_idem (a b : Attr) (h : cleanAttr a = some b) : cleanAttr b = some b := by
  unfold cleanAttr at h
  by_cases hk : a.key = "style"
  · rw [hk, if_pos rfl] at h
    cases hm : reSearchPadding a.value.data with
    | none => rw [hm] at h; cases h
    | some m =>
      rw [hm] at h
      cases h
      obtain ⟨body, hbody, hne, hsemi⟩ := reSearchPadding_some hm
      unfold cleanAttr
      rw [if_pos rfl]
      have hre : reSearchPadding (String.mk (m ++ [';'])).data = some m := by
        show reSearchPadding (m ++ [';']) = some m
        rw [hbody]
        exact reSearchPadding_canonical hne hsemi
      rw [hre]
  · by_cases hr : a.key ∈ attrsToRemove
    · simp [hk, hr] at h
    · simp only [hk, if_neg, reduceIte, hr] at h
      cases h
      unfold cleanAttr
      simp [hk, hr]

/-- A stable filter applied twice equals itself applied once. -/
theorem filterMap_stable {α : Type} (g : α → Option α)
    (hg : ∀ a b, g a = some b → g b = some b) (l : List α) :
    (l.filterMap g).filterMap g = l.filterMap g := by
  induction l with
  | nil => rfl
  | cons a l ih =>
    cases h : g a with
    | none => simp [List.filterMap_cons, h, ih]
    | some b => simp [List.filterMap_cons, h, hg a b h, ih]

/-- Attribute cleaning is idempotent on attribute lists. -/
theorem cleanAttrs_idem (attrs : List Attr) :
    cleanAttrs (cleanAttrs attrs) = cleanAttrs attrs :=
  filterMap_stable cleanAttr cleanAttr_idem attrs

/-- Tree-level idempotence of `cleanup_table`. -/
theorem cleanupNode_idem (n : Node) : cleanupNode (cleanupNode n) = cleanupNode n := by
  refine cleanupNode.induct (fun n => cleanupNode (cleanupNode n) = cleanupNode n)
    (fun cs => cleanupList (cleanupList cs) = cleanupList cs) ?_ ?_ ?_ ?_ n
  · intro s; rfl
  · intro t a cs ih
    simp only [cleanupNode]
    rw [cleanAttrs_idem, ih]
  · rfl
  · intro m ns ih1 ih2
    simp only [cleanupList]
    rw [ih1, ih2]

/-- C4: canonicalization is idempotent — cleaning an already-cleaned
table is the identity, on the tree and hence on the serialized string
content (re-parsing the serialized clean table is modeled as returning
the clean tree itself). -/
theorem cleanup_idempotent (t : Node) :
    cleanupNode (cleanupNode t) = cleanupNode t ∧
    cleanupTableStr (cleanupNode t) = cleanupTableStr t := by
  constructor
  · exact cleanupNode_idem t
  · unfold cleanupTableStr
    rw [cleanupNode_idem t]

/-! ## Lexicographic order and set lemmas -/

/-- The Python string order is irreflexive. -/
theorem strLtB_irrefl : ∀ cs : List Char, strLtB cs cs = false := by
  intro cs
  induction cs with
  | nil => rfl
  | cons c cs ih =>
    show (if c < c then true else if c < c then false else strLtB cs cs) = false
    rw [if_neg (lt_irrefl c), if_neg (lt_irrefl c), ih]

/-- The Python string order is transitive. -/
theorem strLtB_trans : ∀ a b c : List Char,
    strLtB a b = true → strLtB b c = true → strLtB a c = true := by
  intro a
  induction a with
  | nil =>
    intro b c h1 h2
    cases b with
    | nil => exact Bool.noConfusion h1
    | cons y bs =>
      cases c with
      | nil => exact Bool.noConfusion h2
      | cons z cs => rfl
  | cons x as ih =>
    intro b c h1 h2
    cases b with
    | nil => exact Bool.noConfusion h1
    | cons y bs =>
      cases c with
      | nil => exact Bool.noConfusion h2
      | cons z cs =>
        have h1' : (if x < y then true else if y < x then false else strLtB as bs) = true := h1
        have h2' : (if y < z then true else if z < y then false else strLtB bs cs) = true := h2
        show (if x < z then true else if z < x then false else strLtB as cs) = true
        by_cases hxy : x < y
        · by_cases hyz : y < z
          · rw [if_pos (lt_trans hxy hyz)]
          · by_cases hzy : z < y
            · rw [if_neg hyz, if_pos hzy] at h2'
              exact Bool.noConfusion h2'
            · rw [if_pos (lt_of_lt_of_le hxy (not_lt.mp hzy))]
        · by_cases hyx : y < x
          · rw [if_neg hxy, if_pos hyx] at h1'
            exact Bool.noConfusion h1'
          · have hxey : x = y := le_antisymm (not_lt.mp hyx) (not_lt.mp hxy)
            subst hxey
            rw [if_neg hxy, if_neg hyx] at h1'
            by_cases hxz : x < z
            · rw [if_pos hxz]
            · by_cases hzx : z < x
              · rw [if_pos hzx] at h2'
                exact absurd h2' (by rw [if_neg hxz]; simp)
              · rw [if_neg hxz, if_neg hzx] at h2' ⊢
                exact ih bs cs h1' h2'

/-- Two strings neither of which is below the other are equal. -/
theorem strLtB_eq_of_not_lt : ∀ a b : List Char,
    strLtB a b = false → strLtB b a = false → a = b := by
  intro a
  induction a with
  | nil =>
    intro b h1 _
    cases b with
    | nil => rfl
    | cons y bs => exact Bool.noConfusion h1
  | cons x as ih =>
    intro b h1 h2
    cases b with
    | nil => exact Bool.noConfusion h2
    | cons y bs =>
      have h1' : (if x < y then true else if y < x then false else strLtB as bs) = false := h1
      have h2' : (if y < x then true else if x < y then false else strLtB bs as) = false := h2
      by_cases hxy : x < y
      · rw [if_pos hxy] at h1'
        exact Bool.noConfusion h1'
      · by_cases hyx : y < x
        · rw [if_pos hyx] at h2'
          exact Bool.noConfusion h2'
        · have hxey : x = y := le_antisymm (not_lt.mp hyx) (not_lt.mp hxy)
          rw [if_neg hxy, if_neg hyx] at h1'
          rw [if_neg hyx, if_neg hxy] at h2'
          rw [hxey, ih bs h1' h2']

/-- Irreflexivity at the `String` level. -/
theorem pyStrLt_irrefl (a : String) : pyStrLt a a = false :=
  strLtB_irrefl a.data

/-- Transitivity at the `String` level. -/
theorem pyStrLt_trans {a b c : String} (h1 : pyStrLt a b = true)
    (h2 : pyStrLt b c = true) : pyStrLt a c = true :=
  strLtB_trans a.data b.data c.data h1 h2

/-- Antisymmetry-totality at the `String` level. -/
theorem pyStrLt_eq {a b : String} (h1 : pyStrLt a b = false)
    (h2 : pyStrLt b a = false) : a = b := by
  have hd := strLtB_eq_of_not_lt a.data b.data h1 h2
  cases a
  cases b
  exact congrArg String.mk hd

/-- Totality: distinct strings compare strictly in one direction. -/
theorem pyStrLt_total {a b : String} (hne : a ≠ b) (h : pyStrLt a b = false) :
    pyStrLt b a = true := by
  cases hba : pyStrLt b a with
  | true => rfl
  | false => exact absurd (pyStrLt_eq h hba) hne

/-- Membership in a sorted-insert. -/
theorem mem_insertStr (x y : String) : ∀ l : List String,
    y ∈ insertStr x l ↔ y = x ∨ y ∈ l := by
  intro l
  induction l with
  | nil => simp [insertStr]
  | cons z zs ih =>
    unfold insertStr
    by_cases hxz : x = z
    · rw [if_pos hxz]
      constructor
      · intro hy
        exact Or.inr hy
      · intro hy
        rcases hy with hy | hy
        · rw [hy, hxz]
          exact List.mem_cons_self z zs
        · exact hy
    · rw [if_neg hxz]
      by_cases hlt : pyStrLt x z = true
      · rw [if_pos hlt]
        simp [List.mem_cons]
      · rw [if_neg hlt]
        simp only [List.mem_cons, ih]
        tauto

/-- Sorted-insert preserves strict sortedness. -/
theorem pairwise_insertStr (x : String) : ∀ l : List String,
    l.Pairwise (fun a b => pyStrLt a b = true) →
    (insertStr x l).Pairwise (fun a b => pyStrLt a b = true) := by
  intro l
  induction l with
  | nil =>
    intro _
    simp [insertStr]
  | cons z zs ih =>
    intro hp
    unfold insertStr
    by_cases hxz : x = z
    · rw [if_pos hxz]
      exact hp
    · rw [if_neg hxz]
      by_cases hlt : pyStrLt x z = true
      · rw [if_pos hlt]
        refine List.Pairwise.cons ?_ hp
        intro w hw
        rcases List.mem_cons.mp hw with hw | hw
        · rw [hw]
          exact hlt
        · exact pyStrLt_trans hlt (List.rel_of_pairwise_cons hp hw)
      · rw [if_neg hlt]
        have hzx : pyStrLt z x = true :=
          pyStrLt_total hxz (Bool.eq_false_iff.mpr hlt)
        refine List.Pairwise.cons ?_ (ih (List.Pairwise.of_cons hp))
        intro w hw
        rcases (mem_insertStr x w zs).mp hw with hw | hw
        · rw [hw]
          exact hzx
        · exact List.rel_of_pairwise_cons hp hw

/-- `sorted(list(set(...)))` is strictly sorted. -/
theorem sortedDedup_pairwise (l : List String) :
    (sortedDedup l).Pairwise (fun a b => pyStrLt a b = true) := by
  suffices h : ∀ (l acc : List String),
      acc.Pairwise (fun a b => pyStrLt a b = true) →
      (l.foldl (fun acc x => insertStr x acc) acc).Pairwise (fun a b => pyStrLt a b = true) from
    h l [] List.Pairwise.nil
  intro l
  induction l with
  | nil =>
    intro acc h
    exact h
  | cons a l ih =>
    intro acc h
    exact ih _ (pairwise_insertStr a acc h)

/-- A strictly sorted string list has no duplicates. -/
theorem pairwise_pyStrLt_nodup {l : List String}
    (h : l.Pairwise (fun a b => pyStrLt a b = true)) : l.Nodup := by
  refine h.imp ?_
  intro a b hab heq
  rw [heq, pyStrLt_irrefl] at hab
  exact Bool.noConfusion hab

/-- Adding to the Python set keeps its content list duplicate-free. -/
theorem addToSet_nodup {l : List String} (x : String) (h : l.Nodup) :
    (addToSet l x).Nodup := by
  unfold addToSet
  by_cases hx : x ∈ l
  · rw [if_pos hx]
    exact h
  · rw [if_neg hx]
    rw [List.nodup_append]
    refine ⟨h, List.nodup_singleton x, ?_⟩
    intro a ha hmem
    rw [List.mem_singleton] at hmem
    subst hmem
    exact hx ha

/-- The Python set's content list is duplicate-free. -/
theorem pySetInsertionList_nodup (xs : List String) : (pySetInsertionList xs).Nodup := by
  suffices h : ∀ (xs acc : List String), acc.Nodup → (xs.foldl addToSet acc).Nodup from
    h xs [] List.nodup_nil
  intro xs
  induction xs with
  | nil =>
    intro acc h
    exact h
  | cons a xs ih =>
    intro acc h
    exact ih _ (addToSet_nodup a h)

/-! ## Tag filter theorems (C8) -/

/-- C8 counterexample: with the mixed-case keyword "Revenue", the tag
"revenue" starts with the keyword case-insensitively (both lowered),
yet the filter drops it — only the tag is lowered, the keyword is
matched verbatim. -/
theorem filter_keyword_case_cex :
    pyStartswith (pyLower "revenue") (pyLower "Revenue") = true ∧
    filterTags ["revenue"] ["Revenue"] = [] := by
  constructor
  · decide
  · decide

/-- C8 amended: the tag filter is pure and deterministic; it keeps
exactly the tags whose lowered name starts verbatim with some keyword
(so it is case-insensitive in the tag but case-sensitive in the
keyword — with the program's lowercase keywords this is the intended
case-insensitive match); it is order-independent up to permutation;
and with an empty keyword list it returns the empty list. -/
theorem filter_purity (tags₁ tags₂ keywords : List String) (t : String)
    (h : tags₁.Perm tags₂) :
    filterTags tags₁ [] = [] ∧
    (t ∈ filterTags tags₁ keywords ↔
      t ∈ tags₁ ∧ pyStartswithAny (pyLower t) keywords = true) ∧
    (filterTags tags₁ keywords).Perm (filterTags tags₂ keywords) := by
  refine ⟨?_, List.mem_filter, List.Perm.filter _ h⟩
  unfold filterTags pyStartswithAny
  simp

/-- Witness for C8's amended statement. -/
theorem filter_purity_witness :
    (["costs", "RevenueX"] : List String).Perm ["RevenueX", "costs"] ∧
    (filterTags ["costs", "RevenueX"] [] = [] ∧
     ("RevenueX" ∈ filterTags ["costs", "RevenueX"] ["revenue"] ↔
       "RevenueX" ∈ (["costs", "RevenueX"] : List String) ∧
         pyStartswithAny (pyLower "RevenueX") ["revenue"] = true) ∧
     (filterTags ["costs", "RevenueX"] ["revenue"]).Perm
       (filterTags ["RevenueX", "costs"] ["revenue"])) :=
  ⟨by decide,
   filter_purity ["costs", "RevenueX"] ["RevenueX", "costs"] ["revenue"] "RevenueX"
     (by decide)⟩

/-! ## Tag index builder theorem (C6) -/

/-- C6: when parsing raises, `get_gaaps` returns `None` — not the
empty tag collection the claim states — and `analyze_revenue_tables`
then raises `TypeError` iterating it instead of seeing "no tags
found"; only the well-formed-document half of the claim holds (a
document with no matching names yields `[]`). -/
theorem get_gaaps_parse_failure_behavior :
    getGaaps none = none ∧
    getGaaps none ≠ some [] ∧
    analyzeRevenueTables (fun l => l) (fun s => some s) none = .error () ∧
    getGaapsDoc noGaapDoc = [] ∧
    getGaaps (some noGaapDoc) = some [] := by
  refine ⟨rfl, by decide, rfl, rfl, rfl⟩

/-! ## Table locator theorems (C1) -/

/-- C1 counterexample: two facts in the same table carrying two
different retained tags make the aggregator hand that table to the
refiner twice — there is no deduplication across the per-tag
iteration, so the table contributes two candidates, not one. -/
theorem locator_dedup_across_tags_cex :
    SetEnum (fun l => l) ∧
    retainedTags dupFactsDoc = ["RevenueA", "RevenueB"] ∧
    (candidateTables (fun l => l) dupFactsDoc).count (cleanupTableStr dupFactsTableNode) = 2 := by
  refine ⟨setEnum_id, by decide, by decide⟩

/-- C1 amended: deduplication holds within a single tag's lookup —
`get_tables_by_tag` never returns the same cleaned table twice, for
every document, tag and set enumeration — but not across the per-tag
iteration of `analyze_revenue_tables`, which concatenates per-tag
results without deduplication. -/
theorem locator_dedup_within_tag (enum : List String → List String) (h : SetEnum enum)
    (parsed : Option Node) (tagName : String) :
    (getTablesByTag enum parsed tagName).Nodup := by
  cases parsed with
  | none => exact List.nodup_nil
  | some doc =>
    have hn := pySetInsertionList_nodup (discoveredTables doc tagName)
    exact ((h _ hn).symm).nodup hn

/-- Witness for C1's amended statement. -/
theorem locator_dedup_within_tag_witness :
    SetEnum (fun l => l) ∧
    (getTablesByTag (fun l => l) (some dupFactsDoc) "us-gaap:RevenueA").Nodup :=
  ⟨setEnum_id,
   locator_dedup_within_tag (fun l => l) setEnum_id (some dupFactsDoc) "us-gaap:RevenueA"⟩

/-! ## Aggregator order theorems (C7) -/

/-- The retained tag list is strictly sorted. -/
theorem retainedTags_sorted (doc : Node) :
    (retainedTags doc).Pairwise (fun a b => pyStrLt a b = true) := by
  unfold retainedTags filterTags getGaapsDoc
  exact List.Pairwise.sublist (List.filter_sublist _) (sortedDedup_pairwise _)

/-- Dropping `None` outcomes distributes over the per-tag loop. -/
theorem filterMap_id_flatMap_map {α β γ : Type} (l : List α) (g : α → List β)
    (refine : β → Option γ) :
    ((l.flatMap fun x => (g x).map refine).filterMap id) =
      l.flatMap (fun x => (g x).filterMap refine) := by
  induction l with
  | nil => rfl
  | cons a l ih =>
    simp only [List.flatMap_cons, List.filterMap_append, ih, List.filterMap_map]
    rfl

/-- One-step evaluation of the aggregator on a parsed document. -/
theorem analyze_some {β : Type} (enum : List String → List String)
    (refine : String → Option β) (doc : Node) :
    analyzeRevenueTables enum refine (some doc) =
      .ok (((filterTags (getGaapsDoc doc) expectedKeywords).flatMap (fun tag =>
        (getTablesByTag enum (some doc) ("us-gaap:" ++ tag)).map refine)).filterMap id) := rfl

/-- C7 counterexample: under hash randomization `list(set)` may
enumerate the two discovered tables in reverse, so the aggregator's
output within a tag is not the table locator's discovery order. -/
theorem aggregator_discovery_order_cex :
    SetEnum List.reverse ∧
    pySetInsertionList (discoveredTables twoTablesDoc "us-gaap:Revenues") =
      [cleanupTableStr tblOneNode, cleanupTableStr tblTwoNode] ∧
    cleanupTableStr tblOneNode ≠ cleanupTableStr tblTwoNode ∧
    analyzeRevenueTables List.reverse (fun s => some s) (some twoTablesDoc) =
      .ok [cleanupTableStr tblTwoNode, cleanupTableStr tblOneNode] := by
  refine ⟨setEnum_reverse, by decide, by decide, by decide⟩

/-- C7 amended: the aggregator iterates tags in the tag filter's
deterministic strictly-sorted order and drops rejected and failed
(`None`) refinements without raising; within each tag the candidates
appear in the set's unspecified enumeration order — always a
permutation of the locator's discovery order, but not necessarily that
order itself. -/
theorem aggregator_order {β : Type} (enum : List String → List String) (h : SetEnum enum)
    (doc : Node) (refine : String → Option β) (tagName : String) :
    (retainedTags doc).Pairwise (fun a b => pyStrLt a b = true) ∧
    analyzeRevenueTables enum refine (some doc) =
      .ok ((retainedTags doc).flatMap (fun tag =>
        (getTablesByTag enum (some doc) ("us-gaap:" ++ tag)).filterMap refine)) ∧
    ((getTablesByTag enum (some doc) tagName).filterMap refine).Perm
      ((pySetInsertionList (discoveredTables doc tagName)).filterMap refine) := by
  refine ⟨retainedTags_sorted doc, ?_, ?_⟩
  · rw [analyze_some]
    rw [filterMap_id_flatMap_map]
    rfl
  · exact List.Perm.filterMap refine
      (h _ (pySetInsertionList_nodup (discoveredTables doc tagName)))

/-- Witness for C7's amended statement under the reversing
enumeration. -/
theorem aggregator_order_witness :
    SetEnum List.reverse ∧
    ((retainedTags twoTablesDoc).Pairwise (fun a b => pyStrLt a b = true) ∧
     analyzeRevenueTables List.reverse (fun s => some s) (some twoTablesDoc) =
       .ok ((retainedTags twoTablesDoc).flatMap (fun tag =>
         (getTablesByTag List.reverse (some twoTablesDoc) ("us-gaap:" ++ tag)).filterMap
           (fun s => some s))) ∧
     ((getTablesByTag List.reverse (some twoTablesDoc) "us-gaap:Revenues").filterMap
        (fun s => some s)).Perm
       ((pySetInsertionList (discoveredTables twoTablesDoc "us-gaap:Revenues")).filterMap
        (fun s => some s))) :=
  ⟨setEnum_reverse,
   aggregator_order List.reverse setEnum_reverse twoTablesDoc (fun s => some s)
     "us-gaap:Revenues"⟩

/-! ## Table-to-text theorem (C9) -/

/-- C9: on the well-formed Segment/2024 sample table the conversion
produces the header unchanged and a body of exactly the 3 data rows,
none dropped, each containing a non-empty cell. -/
theorem convert_sample_table :
    convertGrid sampleTable =
      some (["Segment", "2024"],
        [["Product A", "100"], ["Product B", "50"], ["Total", "150"]]) ∧
    (∀ r ∈ [["Product A", "100"], ["Product B", "50"], ["Total", "150"]],
      ∃ c ∈ r, c ≠ "") ∧
    convertHtmlTableToMarkdown sampleTable =
      some "| Segment | 2024 |\n| --- | --- |\n| Product A | 100 |\n| Product B | 50 |\n| Total | 150 |" := by
  refine ⟨rfl, by decide, rfl⟩

end TL10K
